import Mathlib

/-!
Verification of the slot-template planning and idempotent publish engine
(services/templates.py: plan_slots, diff_against_db, publish_plan).

Modelling conventions of the shallow embedding:
* A calendar date is a natural number counting days since 1970-01-01
  (a Thursday).  Python compares exception dates by string equality with
  date.isoformat(); since isoformat is injective on dates, equality of
  the day numbers is the same relation.  2025-08-18 (a Monday) is day 20318.
* A time of day is a natural number of minutes since midnight.  The wire
  format is the string "HH:MM"; strptimeHM below models
  datetime.strptime(s, "%H:%M") restricted to the minutes it yields,
  returning none where Python raises ValueError.
* Python dicts with .get lookups become structures with Option fields
  (none = key absent); .get with a default becomes Option.getD.
  A weekday entry that is an empty dict behaves exactly like an absent
  one in the source (both are falsy and all lookups default), so the
  weekdays map returns none for both.
* The while loops of plan_slots are embedded with explicit fuel; a none
  result of genAux / planDays means the Python loop does not terminate
  (possible only when slot_length_min = 0).  A some (Except.error e)
  result means the Python call raises; some (Except.ok l) means it
  returns l.
* The slots table is a list of rows plus a fresh-id counter; the SQL
  UPDATE touches every row matching the natural key and reports how many
  it matched, INSERT appends a row with a fresh id.  Store failures
  inside the publish transaction are modelled by two oracles giving, per
  slot index, whether the UPDATE (resp. INSERT) statement raises; the
  enclosing transaction commits the accumulated state on success and
  discards it on failure, as conn.transaction() does.
* The tenant_id and tz parameters are kept for fidelity; plan_slots
  never reads either (the ZoneInfo object built from tz is unused in the
  source; we model only valid tz keys, for which its construction does
  not raise).
-/

namespace GrowerSlot

/-- Numeric value of a digit character. -/
def digitVal (c : Char) : Nat := c.toNat - 48

/-- Parse one or two digit characters as a decimal number, as the
strptime directives %H and %M do; any other shape fails. -/
def parseNat2 : List Char → Option Nat
  | [c] => if c.isDigit then some (digitVal c) else none
  | [c1, c2] => if c1.isDigit && c2.isDigit then some (digitVal c1 * 10 + digitVal c2) else none
  | _ => none

/-- Split a character list at its first colon; none if no colon occurs. -/
def splitFirstColon : List Char → Option (List Char × List Char)
  | [] => none
  | c :: rest =>
    if c = ':' then some ([], rest)
    else
      match splitFirstColon rest with
      | some (a, b) => some (c :: a, b)
      | none => none

/-- Model of datetime.strptime(s, "%H:%M"), returning minutes since
midnight, or none where Python raises ValueError. -/
def strptimeHM (s : String) : Option Nat :=
  match splitFirstColon s.data with
  | some (h, m) =>
    match parseNat2 h, parseNat2 m with
    | some hv, some mv => if hv ≤ 23 && mv ≤ 59 then some (hv * 60 + mv) else none
    | _, _ => none
  | none => none

/-- Model of current_date.strftime("%a").lower() on the day-number
representation: day 0 (1970-01-01) is a Thursday. -/
def weekdayName (d : Nat) : String :=
  match d % 7 with
  | 0 => "thu"
  | 1 => "fri"
  | 2 => "sat"
  | 3 => "sun"
  | 4 => "mon"
  | 5 => "tue"
  | _ => "wed"

/-- A day-schedule dict: the per-weekday value of the weekdays mapping.
Every field is optional; the source reads each with .get and a default. -/
structure DayCfg where
  enabled : Option Bool := none
  start_time : Option String := none
  end_time : Option String := none
  capacity : Option Nat := none
  resource_unit : Option String := none
  notes : Option String := none
deriving DecidableEq, Repr

/-- An exception entry dict.  Its date field is none when the key is
absent or the string is not the isoformat of any date (such a string
compares unequal to every date.isoformat()).  The scheduling fields are
read only when the entry is used as an override day-schedule. -/
structure TExc where
  date : Option Nat := none
  type : Option String := none
  enabled : Option Bool := none
  start_time : Option String := none
  end_time : Option String := none
  capacity : Option Nat := none
  resource_unit : Option String := none
  notes : Option String := none
deriving DecidableEq, Repr

/-- A template configuration after the .get reads at the top of
plan_slots; fields hold the post-default values (weekdays {}, slot
length 30, exceptions [], capacity 10, unit "tons", notes ""). -/
structure Template where
  weekdays : String → Option DayCfg
  slot_length_min : Nat := 30
  exceptions : List TExc := []
  default_capacity : Nat := 10
  default_resource_unit : String := "tons"
  default_notes : String := ""

/-- A desired slot as emitted by the Planner and consumed by the Differ
and the Publisher. -/
structure Slot where
  date : Nat
  start_time : Nat
  end_time : Nat
  capacity : Nat
  resource_unit : String
  notes : String
  blackout : Bool
deriving DecidableEq, Repr

/-- Result of scanning the exceptions list for the current date:
first entry with a matching date and a recognised type wins, entries of
other types fall through to the rest of the list. -/
inductive ExcFind where
  | blackout : ExcFind
  | override (e : TExc) : ExcFind
  | nofind : ExcFind
deriving DecidableEq, Repr

/-- The for-loop over exceptions at the top of the per-day body of
plan_slots (lines 50-57 of templates.py). -/
def scanExceptions (d : Nat) : List TExc → ExcFind
  | [] => .nofind
  | e :: rest =>
    if e.date = some d then
      if e.type = some "blackout" then .blackout
      else if e.type = some "override" then .override e
      else scanExceptions d rest
    else scanExceptions d rest

/-- View an exception entry as the day-schedule dict it becomes when it
is used as an override. -/
def excCfg (e : TExc) : DayCfg :=
  { enabled := e.enabled, start_time := e.start_time, end_time := e.end_time,
    capacity := e.capacity, resource_unit := e.resource_unit, notes := e.notes }

/-- Resolve the day-schedule plan_slots uses for date d: none when the
date is suppressed (blackout, absent weekday entry, or enabled false),
some cfg when slot generation proceeds with cfg. -/
def resolveSchedule (tpl : Template) (d : Nat) : Option DayCfg :=
  match scanExceptions d tpl.exceptions with
  | .blackout => none
  | .override e =>
    let cfg := excCfg e
    if cfg.enabled.getD true then some cfg else none
  | .nofind =>
    match tpl.weekdays (weekdayName d) with
    | none => none
    | some cfg => if cfg.enabled.getD true then some cfg else none

/-- The inner while loop of plan_slots (lines 93-110): cursor is the
current time in minutes from midnight of the day (it can pass 1440 when
a slot crosses midnight), endT the parsed end_time, L the slot length.
The emitted pair is (start, end) as times of day, matching the
strftime("%H:%M") formatting of the source.  The fuel argument makes the
recursion structural; a none result means the loop does not terminate. -/
def genAux : Nat → Nat → Nat → Nat → Option (List (Nat × Nat))
  | 0, cursor, endT, _ => if cursor < endT then none else some []
  | fuel + 1, cursor, endT, L =>
    if cursor < endT then
      if (cursor + L) % 1440 > endT then some []
      else
        match genAux fuel (cursor + L) endT L with
        | none => none
        | some rest => some ((cursor % 1440, (cursor + L) % 1440) :: rest)
    else some []

/-- Inner loop with the fuel instantiated: endT + 1 iterations always
suffice when L > 0, and when L = 0 the loop either never runs or never
finishes, so the truncation is exact. -/
def genDay (startT endT L : Nat) : Option (List (Nat × Nat)) :=
  genAux (endT + 1) startT endT L

/-- Build the emitted slot dict for one generated (start, end) pair. -/
def mkSlot (d cap : Nat) (ru ns : String) (p : Nat × Nat) : Slot :=
  { date := d, start_time := p.1, end_time := p.2,
    capacity := cap, resource_unit := ru, notes := ns, blackout := false }

/-- The per-day body of plan_slots: none = the day diverges (only with
slot_length_min = 0), some (.error e) = the day raises (strptime on a
malformed time string), some (.ok l) = the day contributes slots l. -/
def dayOutcome (tpl : Template) (d : Nat) : Option (Except String (List Slot)) :=
  match resolveSchedule tpl d with
  | none => some (.ok [])
  | some cfg =>
    match strptimeHM (cfg.start_time.getD "08:00"), strptimeHM (cfg.end_time.getD "17:00") with
    | some startT, some endT =>
      match genDay startT endT tpl.slot_length_min with
      | none => none
      | some ps =>
        some (.ok (ps.map (mkSlot d (cfg.capacity.getD tpl.default_capacity)
          (cfg.resource_unit.getD tpl.default_resource_unit)
          (cfg.notes.getD tpl.default_notes))))
    | _, _ => some (.error "ValueError")

/-- The outer while loop of plan_slots over n consecutive days starting
at d; raising on some day discards the slots of the earlier days, as the
Python exception does. -/
def planDays (tpl : Template) : Nat → Nat → Option (Except String (List Slot))
  | 0, _ => some (.ok [])
  | n + 1, d =>
    match dayOutcome tpl d with
    | none => none
    | some (.error e) => some (.error e)
    | some (.ok sl) =>
      match planDays tpl n (d + 1) with
      | none => none
      | some (.error e) => some (.error e)
      | some (.ok rest) => some (.ok (sl ++ rest))

/-- Embedding of plan_slots.  tenant_id and tz are never read by the
source (the ZoneInfo object is built and discarded; only valid tz keys
are modelled). -/
def plan_slots (tenant_id : String) (tpl : Template) (start_date end_date : Nat)
    (tz : String := "Africa/Johannesburg") : Option (Except String (List Slot)) :=
  planDays tpl (end_date + 1 - start_date) start_date

/-- Day number of 2025-08-18, the Monday used by the concrete spec
examples. -/
def d0818 : Nat := 20318

/-- The Monday day-schedule of the spec §8.3/§8.4 examples. -/
def mondayCfg : DayCfg :=
  { enabled := some true, start_time := some "09:00", end_time := some "10:00",
    capacity := some 15 }

/-- The §8.4 template: Monday 09:00-10:00 capacity 15, slot length 30,
no exceptions. -/
def tpl84 : Template :=
  { weekdays := fun s => if s = "mon" then some mondayCfg else none,
    slot_length_min := 30 }

/-- The §8.3 template: §8.4 plus a blackout exception on 2025-08-18. -/
def tpl83 : Template :=
  { tpl84 with exceptions := [{ date := some d0818, type := some "blackout" }] }

/-- The §8.5 override exception: 2025-08-18 gets 14:00-16:00 capacity 25. -/
def ovExc : TExc :=
  { date := some d0818, type := some "override", start_time := some "14:00",
    end_time := some "16:00", capacity := some 25 }

/-- Counterexample template for the blackout claim: an override entry
for 2025-08-18 placed before a blackout entry for the same date. -/
def tplOvBlack : Template :=
  { tpl84 with
    slot_length_min := 60
    exceptions := [ovExc, { date := some d0818, type := some "blackout" }] }

/-- Counterexample template for planner totality: the Monday schedule
carries a start_time string that "%H:%M" cannot parse. -/
def tplBadTime : Template :=
  { weekdays := fun s =>
      if s = "mon" then
        some { enabled := some true, start_time := some "soon", end_time := some "10:00" }
      else none,
    slot_length_min := 30 }

/-- Counterexample template for the stepping claim: Monday 23:00-23:59
with slot length 120 makes the generated slot cross midnight. -/
def tplWrap : Template :=
  { weekdays := fun s =>
      if s = "mon" then
        some { enabled := some true, start_time := some "23:00", end_time := some "23:59",
               capacity := some 5 }
      else none,
    slot_length_min := 120 }

/-- A persisted slot row.  notes is Option String because the column is
nullable; the Differ normalises a stored NULL (and the empty string) to
"" before comparing. -/
structure PRow where
  id : Nat
  tenant : String
  date : Nat
  start_time : Nat
  end_time : Nat
  capacity : Nat
  resource_unit : String
  blackout : Bool
  notes : Option String
deriving DecidableEq, Repr

/-- The slots table plus the generator state behind gen_random_uuid():
fresh ids are drawn from the counter. -/
structure Store where
  rows : List PRow
  nextId : Nat
deriving DecidableEq, Repr

/-- Natural key of a desired slot (tenant is fixed by the call). -/
def slotKey (s : Slot) : Nat × Nat × Nat := (s.date, s.start_time, s.end_time)

/-- The WHERE clause shared by the Differ lookup and the publish UPDATE:
the row has the given tenant and the natural key of the slot. -/
def keyMatch (tenant : String) (s : Slot) (r : PRow) : Bool :=
  r.tenant == tenant && r.date == s.date && r.start_time == s.start_time &&
    r.end_time == s.end_time

/-- Effect of the publish UPDATE statement on one matching row: the four
mutable fields are set to the slot values (notes becomes non-NULL). -/
def setFields (s : Slot) (r : PRow) : PRow :=
  { r with
    capacity := s.capacity
    resource_unit := s.resource_unit
    blackout := s.blackout
    notes := some s.notes }

/-- Effect of the publish UPDATE statement on the table. -/
def updateRows (tenant : String) (s : Slot) (rows : List PRow) : List PRow :=
  rows.map fun r => if keyMatch tenant s r then setFields s r else r

/-- Effect of the publish INSERT statement: a row with a fresh id and
all fields of the slot is added. -/
def insertRow (tenant : String) (s : Slot) (st : Store) : Store :=
  { rows := st.rows ++ [⟨st.nextId, tenant, s.date, s.start_time, s.end_time,
      s.capacity, s.resource_unit, s.blackout, some s.notes⟩],
    nextId := st.nextId + 1 }

/-- The SELECT of diff_against_db: all rows of the tenant whose date
lies in the inclusive range. -/
def fetchRange (db : List PRow) (tenant : String) (dmin dmax : Nat) : List PRow :=
  db.filter fun r => r.tenant == tenant && decide (dmin ≤ r.date) && decide (r.date ≤ dmax)

/-- The existing_slots dict of diff_against_db: built by iterating the
fetched rows, so on duplicate keys the last row wins. -/
def lookupSlot (rows : List PRow) (k : Nat × Nat × Nat) : Option PRow :=
  rows.reverse.find? fun r => (r.date, r.start_time, r.end_time) == k

/-- The needs_update test of diff_against_db (lines 184-189): any of the
four mutable fields differs, stored NULL notes compared as "". -/
def slotDiffersRow (r : PRow) (s : Slot) : Bool :=
  r.capacity != s.capacity || r.resource_unit != s.resource_unit ||
    r.blackout != s.blackout || (r.notes.getD "") != s.notes

/-- An element of the update bucket: the desired slot dict plus the id
carried over from the persisted row. -/
structure UpdItem where
  slot : Slot
  id : Nat
deriving DecidableEq, Repr

/-- The three buckets returned by diff_against_db. -/
structure DiffResult where
  create : List Slot
  update : List UpdItem
  skip : List Slot
deriving DecidableEq, Repr

/-- The classification loop of diff_against_db (lines 173-198), given
the fetched rows. -/
def classify (fetched : List PRow) : List Slot → DiffResult
  | [] => ⟨[], [], []⟩
  | s :: rest =>
    let acc := classify fetched rest
    match lookupSlot fetched (slotKey s) with
    | none => ⟨s :: acc.create, acc.update, acc.skip⟩
    | some row =>
      if slotDiffersRow row s then ⟨acc.create, ⟨s, row.id⟩ :: acc.update, acc.skip⟩
      else ⟨acc.create, acc.update, s :: acc.skip⟩

/-- Minimum of the date fields of a non-empty desired list (0 for []). -/
def minDate : List Slot → Nat
  | [] => 0
  | s :: rest => rest.foldl (fun a x => Nat.min a x.date) s.date

/-- Maximum of the date fields of a non-empty desired list (0 for []). -/
def maxDate : List Slot → Nat
  | [] => 0
  | s :: rest => rest.foldl (fun a x => Nat.max a x.date) s.date

/-- Embedding of diff_against_db: the db argument stands for the whole
slots table; the function performs the one bounded read and classifies. -/
def diff_against_db (tenant_id : String) (desired : List Slot) (db : List PRow) : DiffResult :=
  match desired with
  | [] => ⟨[], [], []⟩
  | _ =>
    classify (fetchRange db tenant_id (minDate desired) (maxDate desired)) desired

/-- The per-slot loop inside the publish transaction (lines 231-274),
acting on the tentative store state.  orU i (resp. orI i) tells whether
the UPDATE (resp. INSERT) statement of the slot at position i raises;
an error aborts the loop, an UPDATE that raises has no effect. -/
def txLoop (orU orI : Nat → Bool) (tenant : String) :
    List Slot → Nat → Store → Nat → Nat → Except String (Store × Nat × Nat)
  | [], _, st, c, u => .ok (st, c, u)
  | s :: rest, i, st, c, u =>
    if orU i then .error "update failed"
    else if st.rows.countP (keyMatch tenant s) = 0 then
      if orI i then .error "insert failed"
      else txLoop orU orI tenant rest (i + 1) (insertRow tenant s st) (c + 1) u
    else txLoop orU orI tenant rest (i + 1) ⟨updateRows tenant s st.rows, st.nextId⟩ c (u + 1)

/-- Counts returned by publish_plan. -/
structure Counts where
  created : Nat
  updated : Nat
  skipped : Nat
deriving DecidableEq, Repr

/-- Embedding of publish_plan.  The returned store is the persisted
state after the call: on success the transaction commits the state built
by the loop, on failure it rolls back to the input state and the error
propagates to the caller in place of the counts. -/
def publish_plan (tenant_id : String) (plan : List Slot) (st : Store)
    (orU orI : Nat → Bool) : Store × Except String Counts :=
  if plan.isEmpty then (st, .ok ⟨0, 0, 0⟩)
  else
    match txLoop orU orI tenant_id plan 0 st 0 0 with
    | .error e => (st, .error e)
    | .ok (st2, c, u) => (st2, .ok ⟨c, u, plan.length - (c + u)⟩)

/-- The all-operations-succeed oracle. -/
def noFail : Nat → Bool := fun _ => false

/-! Planner lemmas -/

/-- A parsed "%H:%M" time is a valid time of day. -/
theorem strptimeHM_lt_1440 {s : String} {n : Nat} (h : strptimeHM s = some n) : n < 1440 := by
  unfold strptimeHM at h
  cases hsp : splitFirstColon s.data with
  | none => simp [hsp] at h
  | some p =>
    obtain ⟨a, b⟩ := p
    simp only [hsp] at h
    cases hh : parseNat2 a with
    | none => simp [hh] at h
    | some hv =>
      cases hm : parseNat2 b with
      | none => simp [hh, hm] at h
      | some mv =>
        simp only [hh, hm] at h
        split at h
        · next hcond =>
            simp only [Bool.and_eq_true, decide_eq_true_eq] at hcond
            injection h with h2
            omega
        · cases h

/-- With slot length 0 and a non-empty window the inner loop never
terminates, whatever the fuel. -/
theorem genAux_zero_none :
    ∀ (fuel cursor endT : Nat), cursor < endT → endT < 1440 → genAux fuel cursor endT 0 = none := by
  intro fuel
  induction fuel with
  | zero =>
    intro cursor endT h1 _
    simp [genAux, h1]
  | succ n ih =>
    intro cursor endT h1 h2
    simp [genAux, h1, ih cursor endT h1 h2]
    omega

/-- Every emitted pair of the inner loop starts at or after the cursor
and strictly before the window end, and the starts strictly increase. -/
theorem genAux_sound :
    ∀ (fuel L cursor endT : Nat) (ps : List (Nat × Nat)), endT < 1440 →
      genAux fuel cursor endT L = some ps →
      (∀ p ∈ ps, cursor ≤ p.1 ∧ p.1 < endT) ∧ ps.Pairwise (fun p q => p.1 < q.1) := by
  intro fuel
  induction fuel with
  | zero =>
    intro L cursor endT ps hE h
    by_cases h1 : cursor < endT
    · simp [genAux, h1] at h
    · simp [genAux, h1] at h
      subst h
      simp
  | succ n ih =>
    intro L cursor endT ps hE h
    by_cases h1 : cursor < endT
    · by_cases h2 : (cursor + L) % 1440 > endT
      · simp [genAux, h1, h2] at h
        subst h
        simp
      · cases hrec : genAux n (cursor + L) endT L with
        | none => simp [genAux, h1, h2, hrec] at h
        | some rest =>
          simp [genAux, h1, h2, hrec] at h
          subst h
          obtain ⟨hb, hp⟩ := ih L (cursor + L) endT rest hE hrec
          match L with
          | 0 =>
            have : genAux n (cursor + 0) endT 0 = none := genAux_zero_none n (cursor + 0) endT (by omega) hE
            rw [this] at hrec
            cases hrec
          | Nat.succ k =>
            have hc : cursor % 1440 = cursor := Nat.mod_eq_of_lt (by omega)
            constructor
            · intro p hp'
              rcases List.mem_cons.mp hp' with rfl | hmem
              · simp [hc]
                omega
              · have := hb p hmem
                omega
            · refine List.Pairwise.cons ?_ hp
              intro q hq
              have := hb q hq
              simp [hc]
              omega
    · simp [genAux, h1] at h
      subst h
      simp

/-- With positive slot length, fuel covering the window length is
enough for the inner loop to terminate. -/
theorem genAux_adequate :
    ∀ (fuel cursor endT L : Nat), 0 < L → endT ≤ cursor + fuel →
      ∃ ps, genAux fuel cursor endT L = some ps := by
  intro fuel
  induction fuel with
  | zero =>
    intro cursor endT L _ hf
    have h1 : ¬ cursor < endT := by omega
    exact ⟨[], by simp [genAux, h1]⟩
  | succ n ih =>
    intro cursor endT L hL hf
    by_cases h1 : cursor < endT
    · by_cases h2 : (cursor + L) % 1440 > endT
      · exact ⟨[], by simp [genAux, h1, h2]⟩
      · obtain ⟨rest, hrest⟩ := ih (cursor + L) endT L hL (by omega)
        exact ⟨(cursor % 1440, (cursor + L) % 1440) :: rest, by simp [genAux, h1, h2, hrest]⟩
    · exact ⟨[], by simp [genAux, h1]⟩

/-- The inner loop with genDay fuel always terminates when the slot
length is positive. -/
theorem genDay_adequate (startT endT L : Nat) (hL : 0 < L) :
    ∃ ps, genDay startT endT L = some ps :=
  genAux_adequate (endT + 1) startT endT L hL (by omega)

/-- Closed form of the inner loop: the k-th emitted pair is the k-th
step of the fixed-length walk from the window start, every emitted step
satisfies the loop guard and the non-break condition on its wrapped end
time, and the first step past the output fails one of the two. -/
theorem genAux_closed :
    ∀ (fuel L cursor endT : Nat) (ps : List (Nat × Nat)), 0 < L → endT < 1440 →
      genAux fuel cursor endT L = some ps →
      (∀ (k : Nat) (hk : k < ps.length),
          ps.get ⟨k, hk⟩ = (cursor + k * L, (cursor + (k + 1) * L) % 1440)) ∧
      (∀ k, k < ps.length → cursor + k * L < endT ∧ (cursor + (k + 1) * L) % 1440 ≤ endT) ∧
      ¬(cursor + ps.length * L < endT ∧ (cursor + (ps.length + 1) * L) % 1440 ≤ endT) := by
  intro fuel
  induction fuel with
  | zero =>
    intro L cursor endT ps hL hE h
    by_cases h1 : cursor < endT
    · simp [genAux, h1] at h
    · simp [genAux, h1] at h
      subst h
      exact ⟨by simp, by simp, by omega⟩
  | succ n ih =>
    intro L cursor endT ps hL hE h
    by_cases h1 : cursor < endT
    · by_cases h2 : (cursor + L) % 1440 > endT
      · simp [genAux, h1, h2] at h
        subst h
        refine ⟨by simp, by simp, ?_⟩
        simp only [List.length_nil, Nat.zero_mul, Nat.add_zero, Nat.zero_add, Nat.one_mul]
        omega
      · cases hrec : genAux n (cursor + L) endT L with
        | none => simp [genAux, h1, h2, hrec] at h
        | some rest =>
          simp [genAux, h1, h2, hrec] at h
          subst h
          obtain ⟨ihg, ihc, ihn⟩ := ih L (cursor + L) endT rest hL hE hrec
          have hc : cursor % 1440 = cursor := Nat.mod_eq_of_lt (by omega)
          refine ⟨?_, ?_, ?_⟩
          · intro k hk
            match k with
            | 0 =>
              simp [hc]
            | Nat.succ j =>
              have hj : j < rest.length := by simpa using hk
              have hg := ihg j hj
              simp only [List.get_cons_succ]
              rw [hg]
              simp only [Nat.succ_eq_add_one, Prod.mk.injEq]
              constructor
              · ring
              · congr 1
                ring
          · intro k hk
            match k with
            | 0 =>
              constructor
              · simpa using h1
              · have : cursor + (0 + 1) * L = cursor + L := by ring
                rw [this]
                omega
            | Nat.succ j =>
              have hj : j < rest.length := by simpa using hk
              obtain ⟨ha, hb⟩ := ihc j hj
              simp only [Nat.succ_eq_add_one]
              constructor
              · have he : cursor + (j + 1) * L = cursor + L + j * L := by ring
                rw [he]
                exact ha
              · have he : cursor + (j + 1 + 1) * L = cursor + L + (j + 1) * L := by ring
                rw [he]
                exact hb
          · have e1 : cursor + ((cursor % 1440, (cursor + L) % 1440) :: rest).length * L =
                cursor + L + rest.length * L := by
              simp
              ring
            have e2 : cursor + (((cursor % 1440, (cursor + L) % 1440) :: rest).length + 1) * L =
                cursor + L + (rest.length + 1) * L := by
              simp
              ring
            rw [e1, e2]
            exact ihn
    · simp [genAux, h1] at h
      subst h
      exact ⟨by simp, by simp, by omega⟩

/-- Inversion of a successful per-day outcome: either the date is
suppressed and contributes nothing, or generation ran on the resolved
schedule. -/
theorem dayOutcome_ok_cases {tpl : Template} {d : Nat} {l : List Slot}
    (h : dayOutcome tpl d = some (.ok l)) :
    (resolveSchedule tpl d = none ∧ l = []) ∨
    ∃ cfg startT endT ps, resolveSchedule tpl d = some cfg ∧
      strptimeHM (cfg.start_time.getD "08:00") = some startT ∧
      strptimeHM (cfg.end_time.getD "17:00") = some endT ∧
      genDay startT endT tpl.slot_length_min = some ps ∧
      l = ps.map (mkSlot d (cfg.capacity.getD tpl.default_capacity)
        (cfg.resource_unit.getD tpl.default_resource_unit)
        (cfg.notes.getD tpl.default_notes)) := by
  unfold dayOutcome at h
  cases hres : resolveSchedule tpl d with
  | none =>
    simp only [hres] at h
    injection h with h
    injection h with h
    exact Or.inl ⟨rfl, h.symm⟩
  | some cfg =>
    simp only [hres] at h
    cases hst : strptimeHM (cfg.start_time.getD "08:00") with
    | none => simp [hst] at h
    | some startT =>
      cases het : strptimeHM (cfg.end_time.getD "17:00") with
      | none => simp [hst, het] at h
      | some endT =>
        simp only [hst, het] at h
        cases hg : genDay startT endT tpl.slot_length_min with
        | none => simp [hg] at h
        | some ps =>
          simp only [hg] at h
          injection h with h
          injection h with h
          exact Or.inr ⟨cfg, startT, endT, ps, rfl, hst, het, hg, h.symm⟩

/-- Every slot a day contributes is dated that day. -/
theorem dayOutcome_dates {tpl : Template} {d : Nat} {l : List Slot}
    (h : dayOutcome tpl d = some (.ok l)) : ∀ s ∈ l, s.date = d := by
  rcases dayOutcome_ok_cases h with ⟨_, rfl⟩ | ⟨cfg, startT, endT, ps, _, _, _, _, rfl⟩
  · simp
  · intro s hs
    obtain ⟨p, _, rfl⟩ := List.mem_map.mp hs
    rfl

/-- The slots a day contributes have strictly increasing start times. -/
theorem dayOutcome_sorted {tpl : Template} {d : Nat} {l : List Slot}
    (h : dayOutcome tpl d = some (.ok l)) :
    l.Pairwise (fun a b => a.start_time < b.start_time) := by
  rcases dayOutcome_ok_cases h with ⟨_, rfl⟩ | ⟨cfg, startT, endT, ps, _, _, het, hg, rfl⟩
  · simp
  · have hE : endT < 1440 := strptimeHM_lt_1440 het
    have hp := (genAux_sound (endT + 1) tpl.slot_length_min startT endT ps hE hg).2
    rw [List.pairwise_map]
    exact hp

/-- With a positive slot length a day never diverges. -/
theorem dayOutcome_ne_none {tpl : Template} {d : Nat} (hL : 0 < tpl.slot_length_min) :
    dayOutcome tpl d ≠ none := by
  unfold dayOutcome
  cases hres : resolveSchedule tpl d with
  | none => simp
  | some cfg =>
    cases hst : strptimeHM (cfg.start_time.getD "08:00") with
    | none => simp [hst]
    | some startT =>
      cases het : strptimeHM (cfg.end_time.getD "17:00") with
      | none => simp [hst, het]
      | some endT =>
        obtain ⟨ps, hps⟩ := genDay_adequate startT endT tpl.slot_length_min hL
        simp [hst, het, hps]

/-- Decompose membership in the output of the day loop. -/
theorem planDays_mem {tpl : Template} :
    ∀ (n d0 : Nat) (l : List Slot), planDays tpl n d0 = some (.ok l) →
      ∀ s ∈ l, ∃ d' dl, dayOutcome tpl d' = some (.ok dl) ∧ s ∈ dl ∧
        d0 ≤ d' ∧ d' < d0 + n := by
  intro n
  induction n with
  | zero =>
    intro d0 l h s hs
    simp only [planDays] at h
    injection h with h
    injection h with h
    rw [← h] at hs
    cases hs
  | succ m ih =>
    intro d0 l h s hs
    simp only [planDays] at h
    cases hd : dayOutcome tpl d0 with
    | none => simp [hd] at h
    | some r =>
      cases r with
      | error e => simp [hd] at h
      | ok sl =>
        simp only [hd] at h
        cases hrest : planDays tpl m (d0 + 1) with
        | none => simp [hrest] at h
        | some r2 =>
          cases r2 with
          | error e => simp [hrest] at h
          | ok rest =>
            simp only [hrest] at h
            injection h with h
            injection h with h
            rw [← h] at hs
            rcases List.mem_append.mp hs with hsl | hrem
            · exact ⟨d0, sl, hd, hsl, Nat.le_refl d0, by omega⟩
            · obtain ⟨d', dl, hday, hmem, hlo, hhi⟩ := ih (d0 + 1) rest hrest s hrem
              exact ⟨d', dl, hday, hmem, by omega, by omega⟩

/-- Dates in the output of the day loop lie in the iterated range. -/
theorem planDays_dates {tpl : Template} {n d0 : Nat} {l : List Slot}
    (h : planDays tpl n d0 = some (.ok l)) :
    ∀ s ∈ l, d0 ≤ s.date ∧ s.date < d0 + n := by
  intro s hs
  obtain ⟨d', dl, hday, hmem, hlo, hhi⟩ := planDays_mem n d0 l h s hs
  have := dayOutcome_dates hday s hmem
  omega

/-- The output of the day loop is strictly increasing in
(date, start_time) lexicographic order. -/
theorem planDays_sorted {tpl : Template} :
    ∀ (n d0 : Nat) (l : List Slot), planDays tpl n d0 = some (.ok l) →
      l.Pairwise (fun a b => a.date < b.date ∨ (a.date = b.date ∧ a.start_time < b.start_time)) := by
  intro n
  induction n with
  | zero =>
    intro d0 l h
    simp only [planDays] at h
    injection h with h
    injection h with h
    rw [← h]
    simp
  | succ m ih =>
    intro d0 l h
    simp only [planDays] at h
    cases hd : dayOutcome tpl d0 with
    | none => simp [hd] at h
    | some r =>
      cases r with
      | error e => simp [hd] at h
      | ok sl =>
        simp only [hd] at h
        cases hrest : planDays tpl m (d0 + 1) with
        | none => simp [hrest] at h
        | some r2 =>
          cases r2 with
          | error e => simp [hrest] at h
          | ok rest =>
            simp only [hrest] at h
            injection h with h
            injection h with h
            rw [← h]
            rw [List.pairwise_append]
            refine ⟨?_, ih (d0 + 1) rest hrest, ?_⟩
            · have hsorted := dayOutcome_sorted hd
              have hdates := dayOutcome_dates hd
              exact hsorted.imp_of_mem fun {a b} ha hb hab =>
                Or.inr ⟨(hdates a ha).trans (hdates b hb).symm, hab⟩
            · intro a ha b hb
              have hda := dayOutcome_dates hd a ha
              have hdb := (planDays_dates hrest b hb).1
              exact Or.inl (by omega)

/-- With a positive slot length the day loop terminates. -/
theorem planDays_ne_none {tpl : Template} (hL : 0 < tpl.slot_length_min) :
    ∀ (n d0 : Nat), planDays tpl n d0 ≠ none := by
  intro n
  induction n with
  | zero => intro d0; simp [planDays]
  | succ m ih =>
    intro d0
    simp only [planDays]
    cases hd : dayOutcome tpl d0 with
    | none => exact absurd hd (dayOutcome_ne_none hL)
    | some r =>
      cases r with
      | error e => simp
      | ok sl =>
        cases hrest : planDays tpl m (d0 + 1) with
        | none => exact absurd hrest (ih (d0 + 1))
        | some r2 =>
          cases r2 with
          | error e => simp
          | ok rest => simp

/-- If a blackout entry for date d occurs in the exceptions list with no
override entry for d before it, the scan finds the blackout. -/
theorem scanExceptions_blackout {d : Nat} :
    ∀ (pre suf : List TExc) (e : TExc), e.date = some d → e.type = some "blackout" →
      (∀ e2 ∈ pre, ¬(e2.date = some d ∧ e2.type = some "override")) →
      scanExceptions d (pre ++ e :: suf) = .blackout := by
  intro pre
  induction pre with
  | nil =>
    intro suf e hd ht _
    simp [scanExceptions, hd, ht]
  | cons e2 rest ih =>
    intro suf e hd ht hpre
    have hrec := ih suf e hd ht fun x hx => hpre x (List.mem_cons_of_mem e2 hx)
    by_cases h2d : e2.date = some d
    · by_cases h2b : e2.type = some "blackout"
      · simp [scanExceptions, h2d, h2b]
      · have h2o : ¬ e2.type = some "override" := fun ho =>
          hpre e2 (List.mem_cons_self e2 rest) ⟨h2d, ho⟩
        simp [scanExceptions, h2d, h2b, h2o]
        exact hrec
    · simp [scanExceptions, h2d]
      exact hrec

/-- A day never raises when both resolved time strings parse. -/
theorem dayOutcome_ok_of_parse {tpl : Template} (hL : 0 < tpl.slot_length_min) (d : Nat)
    (hp : ∀ cfg, resolveSchedule tpl d = some cfg →
      (strptimeHM (cfg.start_time.getD "08:00")).isSome ∧
      (strptimeHM (cfg.end_time.getD "17:00")).isSome) :
    ∃ dl, dayOutcome tpl d = some (.ok dl) := by
  unfold dayOutcome
  cases hres : resolveSchedule tpl d with
  | none => exact ⟨[], rfl⟩
  | some cfg =>
    obtain ⟨hs1, hs2⟩ := hp cfg hres
    obtain ⟨startT, hst⟩ := Option.isSome_iff_exists.mp hs1
    obtain ⟨endT, het⟩ := Option.isSome_iff_exists.mp hs2
    obtain ⟨ps, hps⟩ := genDay_adequate startT endT tpl.slot_length_min hL
    exact ⟨ps.map (mkSlot d (cfg.capacity.getD tpl.default_capacity)
      (cfg.resource_unit.getD tpl.default_resource_unit)
      (cfg.notes.getD tpl.default_notes)), by simp [hst, het, hps]⟩

/-- The day loop succeeds when every day parses. -/
theorem planDays_ok {tpl : Template} (hL : 0 < tpl.slot_length_min)
    (hp : ∀ d cfg, resolveSchedule tpl d = some cfg →
      (strptimeHM (cfg.start_time.getD "08:00")).isSome ∧
      (strptimeHM (cfg.end_time.getD "17:00")).isSome) :
    ∀ (n d0 : Nat), ∃ l, planDays tpl n d0 = some (.ok l) := by
  intro n
  induction n with
  | zero => exact fun d0 => ⟨[], rfl⟩
  | succ m ih =>
    intro d0
    obtain ⟨dl, hd⟩ := dayOutcome_ok_of_parse hL d0 (hp d0)
    obtain ⟨rest, hrest⟩ := ih (d0 + 1)
    exact ⟨dl ++ rest, by simp [planDays, hd, hrest]⟩

/-- Template for the blackout witness: blackout on 2025-08-18 and an
enabled schedule on both Monday and Tuesday. -/
def tplC4w : Template :=
  { weekdays := fun s => if s = "mon" then some mondayCfg
      else if s = "tue" then some mondayCfg else none,
    slot_length_min := 30,
    exceptions := [{ date := some d0818, type := some "blackout" }] }

/-! Claim theorems for the Planner -/

/-- Claim C4, counterexample: the exceptions list of tplOvBlack contains
a blackout entry for 2025-08-18, yet plan_slots emits slots dated
2025-08-18, because an override entry for the same date occurs earlier
in the list and the scan stops at the first date match with a recognised
type.  The claim as stated (blackout wins regardless of any other
exception entries) is therefore false. -/
theorem C4_blackout_cex :
    (∃ e ∈ tplOvBlack.exceptions, e.date = some d0818 ∧ e.type = some "blackout") ∧
    plan_slots "t" tplOvBlack d0818 d0818 "Africa/Johannesburg" =
      some (.ok [⟨d0818, 840, 900, 25, "tons", "", false⟩,
                 ⟨d0818, 900, 960, 25, "tons", "", false⟩]) ∧
    (⟨d0818, 840, 900, 25, "tons", "", false⟩ : Slot).date = d0818 := by
  refine ⟨⟨{ date := some d0818, type := some "blackout" }, by decide, by decide⟩, rfl, rfl⟩

/-- Claim C4, amended: if the exceptions list contains a blackout entry
for date d and no override entry for d occurs earlier in the list, then
a returning plan_slots call emits no slot dated d; and the concrete §8.3
template over [2025-08-18, 2025-08-18] yields the empty list. -/
theorem C4_blackout_amended :
    (∀ (tenant : String) (tpl : Template) (a b : Nat) (tz : String) (d : Nat) (l : List Slot)
        (pre suf : List TExc) (e : TExc),
        tpl.exceptions = pre ++ e :: suf → e.date = some d → e.type = some "blackout" →
        (∀ e2 ∈ pre, ¬(e2.date = some d ∧ e2.type = some "override")) →
        plan_slots tenant tpl a b tz = some (.ok l) →
        ∀ s ∈ l, s.date ≠ d) ∧
    plan_slots "t" tpl83 d0818 d0818 "Africa/Johannesburg" = some (.ok []) := by
  constructor
  · intro tenant tpl a b tz d l pre suf e hexc hd ht hpre h s hs hdate
    unfold plan_slots at h
    obtain ⟨d', dl, hday, hmem, _, _⟩ := planDays_mem _ _ _ h s hs
    have hds : s.date = d' := dayOutcome_dates hday s hmem
    have hscan : scanExceptions d tpl.exceptions = .blackout := by
      rw [hexc]
      exact scanExceptions_blackout pre suf e hd ht hpre
    have hres : resolveSchedule tpl d = none := by
      unfold resolveSchedule
      rw [hscan]
    have hout : dayOutcome tpl d = some (.ok ([] : List Slot)) := by
      unfold dayOutcome
      rw [hres]
    have hdd : d' = d := by rw [← hds, hdate]
    rw [hdd] at hday
    have : Except.ok (ε := String) dl = .ok ([] : List Slot) := by
      have h2 := hday.symm.trans hout
      injection h2
    injection this with this
    rw [this] at hmem
    cases hmem
  · rfl

set_option maxRecDepth 2000 in
/-- Witness for the amended C4: the blackout suppresses 2025-08-18 while
the following Tuesday still generates, so the conclusion is not vacuous. -/
theorem C4_blackout_amended_wit :
    tplC4w.exceptions =
      [] ++ ({ date := some d0818, type := some "blackout" } : TExc) :: [] ∧
    plan_slots "t" tplC4w d0818 (d0818 + 1) "Africa/Johannesburg" =
      some (.ok [⟨d0818 + 1, 540, 570, 15, "tons", "", false⟩,
                 ⟨d0818 + 1, 570, 600, 15, "tons", "", false⟩]) ∧
    (∀ s ∈ [(⟨d0818 + 1, 540, 570, 15, "tons", "", false⟩ : Slot),
            ⟨d0818 + 1, 570, 600, 15, "tons", "", false⟩], s.date ≠ d0818) := by
  have hplan : plan_slots "t" tplC4w d0818 (d0818 + 1) "Africa/Johannesburg" =
      some (.ok [⟨d0818 + 1, 540, 570, 15, "tons", "", false⟩,
                 ⟨d0818 + 1, 570, 600, 15, "tons", "", false⟩]) := rfl
  refine ⟨rfl, hplan, ?_⟩
  exact C4_blackout_amended.1 "t" tplC4w d0818 (d0818 + 1) "Africa/Johannesburg" d0818
    [⟨d0818 + 1, 540, 570, 15, "tons", "", false⟩, ⟨d0818 + 1, 570, 600, 15, "tons", "", false⟩]
    [] [] { date := some d0818, type := some "blackout" } rfl rfl rfl (by simp) hplan

/-- Claim C5, counterexample: a day-schedule whose start_time string is
not in HH:MM form makes plan_slots raise (strptime ValueError), so the
planner is not total in the template configuration. -/
theorem C5_totality_cex :
    plan_slots "t" tplBadTime d0818 d0818 "Africa/Johannesburg" =
      some (.error "ValueError") := rfl

/-- Claim C5, amended: malformed exception entries and absent or
disabled day configurations never make plan_slots raise; the only
failure is a resolved day-schedule time string that does not parse as
HH:MM.  With a positive slot length and every resolved schedule
parseable, plan_slots returns a list. -/
theorem C5_totality_amended :
    ∀ (tenant : String) (tpl : Template) (a b : Nat) (tz : String),
      0 < tpl.slot_length_min →
      (∀ d cfg, resolveSchedule tpl d = some cfg →
        (strptimeHM (cfg.start_time.getD "08:00")).isSome ∧
        (strptimeHM (cfg.end_time.getD "17:00")).isSome) →
      ∃ l, plan_slots tenant tpl a b tz = some (.ok l) := by
  intro tenant tpl a b tz hL hp
  unfold plan_slots
  exact planDays_ok hL hp (b + 1 - a) a

/-- Witness for the amended C5: the §8.4 template parses everywhere, so
the call returns. -/
theorem C5_totality_amended_wit :
    0 < tpl84.slot_length_min ∧
    ∃ l, plan_slots "t" tpl84 d0818 d0818 "Africa/Johannesburg" = some (.ok l) := by
  refine ⟨by decide, ?_⟩
  refine C5_totality_amended "t" tpl84 d0818 d0818 "Africa/Johannesburg" (by decide) ?_
  intro d cfg hres
  unfold resolveSchedule scanExceptions tpl84 at hres
  by_cases hm : weekdayName d = "mon"
  · simp only [hm] at hres
    simp at hres
    obtain ⟨-, hcfg⟩ := hres
    rw [← hcfg]
    exact ⟨by decide, by decide⟩
  · simp only [if_neg hm] at hres
    simp at hres

/-- Claim C7: the planner output never contains two entries with the
same (date, start_time, end_time) natural key. -/
theorem C7_no_duplicate_keys (tenant : String) (tpl : Template) (a b : Nat) (tz : String)
    (l : List Slot) (hL : 0 < tpl.slot_length_min)
    (h : plan_slots tenant tpl a b tz = some (.ok l)) :
    l.Pairwise fun s1 s2 => slotKey s1 ≠ slotKey s2 := by
  unfold plan_slots at h
  refine (planDays_sorted _ _ _ h).imp ?_
  intro s1 s2 h12 hk
  simp only [slotKey, Prod.mk.injEq] at hk
  obtain ⟨h1, h2, _⟩ := hk
  rcases h12 with hlt | ⟨heq, hlt⟩ <;> omega

/-- Witness for C7 on the §8.4 template. -/
theorem C7_no_duplicate_keys_wit :
    0 < tpl84.slot_length_min ∧
    ([(⟨d0818, 540, 570, 15, "tons", "", false⟩ : Slot),
      ⟨d0818, 570, 600, 15, "tons", "", false⟩].Pairwise
        fun s1 s2 => slotKey s1 ≠ slotKey s2) :=
  ⟨by decide, C7_no_duplicate_keys "t" tpl84 d0818 d0818 "Africa/Johannesburg" _ (by decide) rfl⟩

/-- Claim C9: every planned slot is dated inside the inclusive range and
the output is ordered by (date, start_time). -/
theorem C9_range_order (tenant : String) (tpl : Template) (a b : Nat) (tz : String)
    (l : List Slot) (h : plan_slots tenant tpl a b tz = some (.ok l)) :
    (∀ s ∈ l, a ≤ s.date ∧ s.date ≤ b) ∧
    l.Pairwise fun s1 s2 =>
      s1.date < s2.date ∨ (s1.date = s2.date ∧ s1.start_time ≤ s2.start_time) := by
  unfold plan_slots at h
  constructor
  · intro s hs
    have := planDays_dates h s hs
    omega
  · refine (planDays_sorted _ _ _ h).imp ?_
    intro s1 s2 h12
    rcases h12 with hlt | ⟨heq, hlt⟩
    · exact Or.inl hlt
    · exact Or.inr ⟨heq, Nat.le_of_lt hlt⟩

/-- Witness for C9 on the §8.4 template. -/
theorem C9_range_order_wit :
    (∀ s ∈ [(⟨d0818, 540, 570, 15, "tons", "", false⟩ : Slot),
            ⟨d0818, 570, 600, 15, "tons", "", false⟩], d0818 ≤ s.date ∧ s.date ≤ d0818) ∧
    ([(⟨d0818, 540, 570, 15, "tons", "", false⟩ : Slot),
      ⟨d0818, 570, 600, 15, "tons", "", false⟩].Pairwise
        fun s1 s2 => s1.date < s2.date ∨ (s1.date = s2.date ∧ s1.start_time ≤ s2.start_time)) :=
  C9_range_order "t" tpl84 d0818 d0818 "Africa/Johannesburg" _ rfl

/-- Claim C10: with a positive slot length plan_slots terminates (the
embedding never runs out of fuel), and with slot length 0 the inner loop
makes no progress on a non-empty window, for any amount of fuel. -/
theorem C10_termination :
    (∀ (tenant : String) (tpl : Template) (a b : Nat) (tz : String),
        0 < tpl.slot_length_min → plan_slots tenant tpl a b tz ≠ none) ∧
    (∀ (fuel startT endT : Nat), startT < endT → endT < 1440 →
        genAux fuel startT endT 0 = none) := by
  constructor
  · intro tenant tpl a b tz hL
    unfold plan_slots
    exact planDays_ne_none hL (b + 1 - a) a
  · exact genAux_zero_none

/-- Witness for C10: the §8.4 call terminates and the 09:00-10:00
window with slot length 0 loops forever. -/
theorem C10_termination_wit :
    plan_slots "t" tpl84 d0818 d0818 "Africa/Johannesburg" ≠ none ∧
    genAux 1000 540 600 0 = none :=
  ⟨C10_termination.1 "t" tpl84 d0818 d0818 "Africa/Johannesburg" (by decide),
   C10_termination.2 1000 540 600 (by decide) (by decide)⟩

/-- Claim C8, evaluated: the §8.4 template yields exactly the two
specified slots, but on the failing input (Monday 23:00-23:59, slot
length 120) the code emits the slot 23:00-01:00 although its stepped end
1380 + 1*120 exceeds the parsed end_time 1439 — the break test compares
the wrapped time of day, contradicting the stated remainder-dropping
rule and the comment above it. -/
theorem C8_stepping_eval :
    plan_slots "t" tpl84 d0818 d0818 "Africa/Johannesburg" =
      some (.ok [⟨d0818, 540, 570, 15, "tons", "", false⟩,
                 ⟨d0818, 570, 600, 15, "tons", "", false⟩]) ∧
    strptimeHM "23:00" = some 1380 ∧
    strptimeHM "23:59" = some 1439 ∧
    plan_slots "t" tplWrap d0818 d0818 "Africa/Johannesburg" =
      some (.ok [⟨d0818, 1380, 60, 5, "tons", "", false⟩]) ∧
    1439 < 1380 + 1 * tplWrap.slot_length_min :=
  ⟨rfl, rfl, rfl, rfl, by decide⟩

/-! Differ lemmas -/

/-- Membership in the create bucket: exactly the desired slots whose key
is absent from the fetched lookup. -/
theorem classify_create_mem (f : List PRow) :
    ∀ (l : List Slot) (x : Slot),
      x ∈ (classify f l).create ↔ x ∈ l ∧ lookupSlot f (slotKey x) = none := by
  intro l
  induction l with
  | nil => intro x; simp [classify]
  | cons s rest ih =>
    intro x
    cases hl : lookupSlot f (slotKey s) with
    | none =>
      simp only [classify, hl, List.mem_cons]
      rw [ih]
      constructor
      · rintro (rfl | ⟨h1, h2⟩)
        · exact ⟨Or.inl rfl, hl⟩
        · exact ⟨Or.inr h1, h2⟩
      · rintro ⟨rfl | h1, h2⟩
        · exact Or.inl rfl
        · exact Or.inr ⟨h1, h2⟩
    | some row =>
      by_cases hd : slotDiffersRow row s
      · simp only [classify, hl, if_pos hd, List.mem_cons]
        rw [ih]
        constructor
        · rintro ⟨h1, h2⟩
          exact ⟨Or.inr h1, h2⟩
        · rintro ⟨rfl | h1, h2⟩
          · rw [hl] at h2
            cases h2
          · exact ⟨h1, h2⟩
      · simp only [classify, hl, if_neg hd, List.mem_cons]
        rw [ih]
        constructor
        · rintro ⟨h1, h2⟩
          exact ⟨Or.inr h1, h2⟩
        · rintro ⟨rfl | h1, h2⟩
          · rw [hl] at h2
            cases h2
          · exact ⟨h1, h2⟩

/-- Membership in the skip bucket: exactly the desired slots whose key
is present with all four mutable fields equal. -/
theorem classify_skip_mem (f : List PRow) :
    ∀ (l : List Slot) (x : Slot),
      x ∈ (classify f l).skip ↔
        x ∈ l ∧ ∃ row, lookupSlot f (slotKey x) = some row ∧ slotDiffersRow row x = false := by
  intro l
  induction l with
  | nil => intro x; simp [classify]
  | cons s rest ih =>
    intro x
    cases hl : lookupSlot f (slotKey s) with
    | none =>
      simp only [classify, hl, List.mem_cons]
      rw [ih]
      constructor
      · rintro ⟨h1, h2⟩
        exact ⟨Or.inr h1, h2⟩
      · rintro ⟨rfl | h1, h2⟩
        · obtain ⟨row, hrow, _⟩ := h2
          rw [hl] at hrow
          cases hrow
        · exact ⟨h1, h2⟩
    | some row =>
      by_cases hd : slotDiffersRow row s
      · simp only [classify, hl, if_pos hd, List.mem_cons]
        rw [ih]
        constructor
        · rintro ⟨h1, h2⟩
          exact ⟨Or.inr h1, h2⟩
        · rintro ⟨rfl | h1, h2⟩
          · obtain ⟨row2, hrow2, hnd⟩ := h2
            rw [hl] at hrow2
            injection hrow2 with hrow2
            rw [hrow2] at hd
            rw [hnd] at hd
            cases hd
          · exact ⟨h1, h2⟩
      · simp only [classify, hl, if_neg hd, List.mem_cons]
        rw [ih]
        constructor
        · rintro (rfl | ⟨h1, h2⟩)
          · exact ⟨Or.inl rfl, row, hl, Bool.not_eq_true _ ▸ hd⟩
          · exact ⟨Or.inr h1, h2⟩
        · rintro ⟨rfl | h1, h2⟩
          · exact Or.inl rfl
          · exact Or.inr ⟨h1, h2⟩

/-- Membership in the update bucket: exactly the desired slots whose key
is present with some field difference, paired with the persisted id. -/
theorem classify_update_mem (f : List PRow) :
    ∀ (l : List Slot) (u : UpdItem),
      u ∈ (classify f l).update ↔
        u.slot ∈ l ∧ ∃ row, lookupSlot f (slotKey u.slot) = some row ∧
          slotDiffersRow row u.slot = true ∧ u.id = row.id := by
  intro l
  induction l with
  | nil => intro u; simp [classify]
  | cons s rest ih =>
    intro u
    cases hl : lookupSlot f (slotKey s) with
    | none =>
      simp only [classify, hl, List.mem_cons]
      rw [ih]
      constructor
      · rintro ⟨h1, h2⟩
        exact ⟨Or.inr h1, h2⟩
      · rintro ⟨hs | h1, h2⟩
        · obtain ⟨row, hrow, _⟩ := h2
          rw [hs, hl] at hrow
          cases hrow
        · exact ⟨h1, h2⟩
    | some row =>
      by_cases hd : slotDiffersRow row s
      · simp only [classify, hl, if_pos hd, List.mem_cons]
        rw [ih]
        constructor
        · rintro (rfl | ⟨h1, h2⟩)
          · exact ⟨Or.inl rfl, row, hl, hd, rfl⟩
          · exact ⟨Or.inr h1, h2⟩
        · rintro ⟨hs | h1, h2⟩
          · obtain ⟨row2, hrow2, hd2, hid⟩ := h2
            rw [hs, hl] at hrow2
            injection hrow2 with hrow2
            left
            obtain ⟨us, ui⟩ := u
            simp only at hs hid
            rw [← hrow2] at hid
            rw [hs, hid]
          · exact Or.inr ⟨h1, h2⟩
      · simp only [classify, hl, if_neg hd, List.mem_cons]
        rw [ih]
        constructor
        · rintro ⟨h1, h2⟩
          exact ⟨Or.inr h1, h2⟩
        · rintro ⟨hs | h1, h2⟩
          · obtain ⟨row2, hrow2, hd2, _⟩ := h2
            rw [hs, hl] at hrow2
            injection hrow2 with hrow2
            rw [hs, ← hrow2] at hd2
            exact absurd hd2 hd
          · exact ⟨h1, h2⟩

/-- On a non-empty desired list the Differ is the classification of the
fetched range. -/
theorem diff_eq_classify {tenant : String} {desired : List Slot} {db : List PRow}
    (h : desired ≠ []) :
    diff_against_db tenant desired db =
      classify (fetchRange db tenant (minDate desired) (maxDate desired)) desired := by
  cases desired with
  | nil => exact absurd rfl h
  | cons a l => rfl

/-- Claim C6: every desired slot lands in exactly one bucket — create
when its key is absent from the fetched rows, update (carrying the
persisted id and the desired fields) when present with a field
difference, skip when present with all four fields equal. -/
theorem C6_diff_classification (tenant : String) (desired : List Slot) (db : List PRow)
    (s : Slot) (hs : s ∈ desired) :
    (lookupSlot (fetchRange db tenant (minDate desired) (maxDate desired)) (slotKey s) = none →
      s ∈ (diff_against_db tenant desired db).create ∧
      s ∉ (diff_against_db tenant desired db).skip ∧
      ∀ i, (⟨s, i⟩ : UpdItem) ∉ (diff_against_db tenant desired db).update) ∧
    (∀ row,
      lookupSlot (fetchRange db tenant (minDate desired) (maxDate desired)) (slotKey s) = some row →
      slotDiffersRow row s = true →
      (∀ i, ((⟨s, i⟩ : UpdItem) ∈ (diff_against_db tenant desired db).update ↔ i = row.id)) ∧
      s ∉ (diff_against_db tenant desired db).create ∧
      s ∉ (diff_against_db tenant desired db).skip) ∧
    (∀ row,
      lookupSlot (fetchRange db tenant (minDate desired) (maxDate desired)) (slotKey s) = some row →
      slotDiffersRow row s = false →
      s ∈ (diff_against_db tenant desired db).skip ∧
      s ∉ (diff_against_db tenant desired db).create ∧
      ∀ i, (⟨s, i⟩ : UpdItem) ∉ (diff_against_db tenant desired db).update) := by
  have hne : desired ≠ [] := by
    intro h
    rw [h] at hs
    cases hs
  rw [diff_eq_classify hne]
  set f := fetchRange db tenant (minDate desired) (maxDate desired) with hf
  refine ⟨?_, ?_, ?_⟩
  · intro hnone
    refine ⟨(classify_create_mem f desired s).mpr ⟨hs, hnone⟩, ?_, ?_⟩
    · intro hin
      obtain ⟨_, row, hrow, _⟩ := (classify_skip_mem f desired s).mp hin
      rw [hnone] at hrow
      cases hrow
    · intro i hin
      obtain ⟨_, row, hrow, _⟩ := (classify_update_mem f desired ⟨s, i⟩).mp hin
      rw [hnone] at hrow
      cases hrow
  · intro row hrow hd
    refine ⟨?_, ?_, ?_⟩
    · intro i
      constructor
      · intro hin
        obtain ⟨_, row2, hrow2, _, hid⟩ := (classify_update_mem f desired ⟨s, i⟩).mp hin
        rw [hrow] at hrow2
        injection hrow2 with hrow2
        simp only at hid
        rw [hrow2]
        exact hid
      · intro hi
        exact (classify_update_mem f desired ⟨s, i⟩).mpr ⟨hs, row, hrow, hd, hi⟩
    · intro hin
      obtain ⟨_, hnone⟩ := (classify_create_mem f desired s).mp hin
      rw [hrow] at hnone
      cases hnone
    · intro hin
      obtain ⟨_, row2, hrow2, hnd⟩ := (classify_skip_mem f desired s).mp hin
      rw [hrow] at hrow2
      injection hrow2 with hrow2
      rw [← hrow2] at hnd
      rw [hnd] at hd
      cases hd
  · intro row hrow hnd
    refine ⟨(classify_skip_mem f desired s).mpr ⟨hs, row, hrow, hnd⟩, ?_, ?_⟩
    · intro hin
      obtain ⟨_, hnone⟩ := (classify_create_mem f desired s).mp hin
      rw [hrow] at hnone
      cases hnone
    · intro i hin
      obtain ⟨_, row2, hrow2, hd2, _⟩ := (classify_update_mem f desired ⟨s, i⟩).mp hin
      rw [hrow] at hrow2
      injection hrow2 with hrow2
      rw [← hrow2] at hd2
      rw [hd2] at hnd
      cases hnd

/-- Desired slot used by the Differ witness. -/
def slotB : Slot := ⟨d0818, 540, 570, 20, "tons", "", false⟩

/-- Persisted row used by the Differ witness: same key as slotB but
capacity 15, so the pair is classified as an update carrying id 7. -/
def rowB : PRow := ⟨7, "t", d0818, 540, 570, 15, "tons", false, none⟩

/-- Witness for C6: with one persisted row differing only in capacity,
the desired slot is classified update with the persisted id, and is in
neither of the other buckets. -/
theorem C6_diff_classification_wit :
    (⟨slotB, 7⟩ : UpdItem) ∈ (diff_against_db "t" [slotB] [rowB]).update ∧
    slotB ∉ (diff_against_db "t" [slotB] [rowB]).create ∧
    slotB ∉ (diff_against_db "t" [slotB] [rowB]).skip := by
  have h := (C6_diff_classification "t" [slotB] [rowB] slotB (by decide)).2.1 rowB (by decide)
    (by decide)
  exact ⟨(h.1 7).mpr (by decide), h.2.1, h.2.2⟩

/-! Publisher lemmas -/

/-- After publishing a slot, the store satisfies this: some row carries
its key, and every row carrying its key already holds its field values
(so re-applying the UPDATE is the identity). -/
def applied (tenant : String) (rows : List PRow) (s : Slot) : Prop :=
  (∃ r ∈ rows, keyMatch tenant s r = true) ∧
  ∀ r ∈ rows, keyMatch tenant s r = true → setFields s r = r

/-- The UPDATE does not touch key fields. -/
theorem keyMatch_setFields (tenant : String) (s s2 : Slot) (r : PRow) :
    keyMatch tenant s2 (setFields s r) = keyMatch tenant s2 r := by
  simp [keyMatch, setFields]

/-- A row matching two slots forces their keys equal. -/
theorem keyMatch_eq_keys {tenant : String} {s1 s2 : Slot} {r : PRow}
    (h1 : keyMatch tenant s1 r = true) (h2 : keyMatch tenant s2 r = true) :
    slotKey s1 = slotKey s2 := by
  simp only [keyMatch, Bool.and_eq_true, beq_iff_eq] at h1 h2
  obtain ⟨⟨⟨-, hd1⟩, hs1⟩, he1⟩ := h1
  obtain ⟨⟨⟨-, hd2⟩, hs2⟩, he2⟩ := h2
  simp only [slotKey, Prod.mk.injEq]
  omega

/-- Positive match count yields a matching row. -/
theorem exists_of_countP_ne_zero {p : PRow → Bool} {l : List PRow} (h : l.countP p ≠ 0) :
    ∃ r ∈ l, p r = true := by
  by_contra hc
  push_neg at hc
  exact h (List.countP_eq_zero.mpr fun a ha => by simpa using hc a ha)

/-- The UPDATE of a matched slot leaves the store in applied state for
that slot. -/
theorem applied_updateRows {tenant : String} {s : Slot} {rows : List PRow}
    (h : rows.countP (keyMatch tenant s) ≠ 0) :
    applied tenant (updateRows tenant s rows) s := by
  obtain ⟨r, hr, hk⟩ := exists_of_countP_ne_zero h
  constructor
  · refine ⟨setFields s r, ?_, ?_⟩
    · unfold updateRows
      refine List.mem_map.mpr ⟨r, hr, ?_⟩
      rw [if_pos hk]
    · rw [keyMatch_setFields]
      exact hk
  · intro r2 hr2 hk2
    unfold updateRows at hr2
    obtain ⟨r0, hr0, heq⟩ := List.mem_map.mp hr2
    by_cases hk0 : keyMatch tenant s r0 = true
    · rw [if_pos hk0] at heq
      rw [← heq]
      simp [setFields]
    · rw [if_neg hk0] at heq
      rw [← heq] at hk2
      exact absurd hk2 hk0

/-- The INSERT of an unmatched slot leaves the store in applied state
for that slot. -/
theorem applied_insertRow {tenant : String} {s : Slot} {st : Store}
    (h : st.rows.countP (keyMatch tenant s) = 0) :
    applied tenant (insertRow tenant s st).rows s := by
  constructor
  · refine ⟨⟨st.nextId, tenant, s.date, s.start_time, s.end_time, s.capacity,
      s.resource_unit, s.blackout, some s.notes⟩, ?_, ?_⟩
    · unfold insertRow
      simp
    · simp [keyMatch]
  · intro r hr hk
    unfold insertRow at hr
    simp at hr
    rcases hr with hold | rfl
    · exact absurd hk (List.countP_eq_zero.mp h r hold)
    · simp [setFields]

/-- Publishing a slot with a different key preserves the applied state
of another slot, UPDATE case. -/
theorem applied_preserved_update {tenant : String} {s s0 : Slot} {rows : List PRow}
    (hne : slotKey s ≠ slotKey s0) (h : applied tenant rows s0) :
    applied tenant (updateRows tenant s rows) s0 := by
  obtain ⟨⟨r, hr, hk⟩, hall⟩ := h
  constructor
  · refine ⟨r, ?_, hk⟩
    unfold updateRows
    refine List.mem_map.mpr ⟨r, hr, ?_⟩
    have hnk : ¬ keyMatch tenant s r = true := fun hk2 => hne (keyMatch_eq_keys hk2 hk)
    rw [if_neg hnk]
  · intro r2 hr2 hk2
    unfold updateRows at hr2
    obtain ⟨r0, hr0, heq⟩ := List.mem_map.mp hr2
    by_cases hk0 : keyMatch tenant s r0 = true
    · rw [if_pos hk0] at heq
      rw [← heq, keyMatch_setFields] at hk2
      exact absurd (keyMatch_eq_keys hk0 hk2) hne
    · rw [if_neg hk0] at heq
      rw [← heq] at hk2 ⊢
      exact hall r0 hr0 hk2

/-- Publishing a slot with a different key preserves the applied state
of another slot, INSERT case. -/
theorem applied_preserved_insert {tenant : String} {s s0 : Slot} {st : Store}
    (hne : slotKey s ≠ slotKey s0) (h : applied tenant st.rows s0) :
    applied tenant (insertRow tenant s st).rows s0 := by
  obtain ⟨⟨r, hr, hk⟩, hall⟩ := h
  constructor
  · refine ⟨r, ?_, hk⟩
    unfold insertRow
    simp
    exact Or.inl hr
  · intro r2 hr2 hk2
    unfold insertRow at hr2
    simp at hr2
    rcases hr2 with hold | rfl
    · exact hall r2 hold hk2
    · exfalso
      apply hne
      have hks : keyMatch tenant s
          ⟨st.nextId, tenant, s.date, s.start_time, s.end_time, s.capacity,
            s.resource_unit, s.blackout, some s.notes⟩ = true := by
        simp [keyMatch]
      exact keyMatch_eq_keys hks hk2

/-- With no injected failures the transaction loop always succeeds. -/
theorem txLoop_noFail_ok (tenant : String) :
    ∀ (plan : List Slot) (i : Nat) (st : Store) (c u : Nat),
      ∃ st2 c2 u2, txLoop noFail noFail tenant plan i st c u = .ok (st2, c2, u2) := by
  intro plan
  induction plan with
  | nil => intro i st c u; exact ⟨st, c, u, rfl⟩
  | cons s rest ih =>
    intro i st c u
    by_cases h0 : st.rows.countP (keyMatch tenant s) = 0
    · obtain ⟨st2, c2, u2, h⟩ := ih (i + 1) (insertRow tenant s st) (c + 1) u
      exact ⟨st2, c2, u2, by simp [txLoop, noFail, h0, h]⟩
    · obtain ⟨st2, c2, u2, h⟩ := ih (i + 1) ⟨updateRows tenant s st.rows, st.nextId⟩ c (u + 1)
      exact ⟨st2, c2, u2, by simp [txLoop, noFail, h0, h]⟩

/-- Every processed slot increments exactly one of the counters. -/
theorem txLoop_counts (orU orI : Nat → Bool) (tenant : String) :
    ∀ (plan : List Slot) (i : Nat) (st : Store) (c u : Nat) (st2 : Store) (c2 u2 : Nat),
      txLoop orU orI tenant plan i st c u = .ok (st2, c2, u2) →
      c2 + u2 = c + u + plan.length := by
  intro plan
  induction plan with
  | nil =>
    intro i st c u st2 c2 u2 h
    simp [txLoop] at h
    simp only [List.length_nil]
    omega
  | cons s rest ih =>
    intro i st c u st2 c2 u2 h
    cases hU : orU i with
    | true => simp [txLoop, hU] at h
    | false =>
      by_cases h0 : st.rows.countP (keyMatch tenant s) = 0
      · cases hI : orI i with
        | true => simp [txLoop, hU, h0, hI] at h
        | false =>
          simp only [txLoop, hU, h0, hI, Bool.false_eq_true, if_false, if_pos] at h
          have := ih (i + 1) (insertRow tenant s st) (c + 1) u st2 c2 u2 h
          simp at this ⊢
          omega
      · simp only [txLoop, hU, h0, Bool.false_eq_true, if_false] at h
        have := ih (i + 1) ⟨updateRows tenant s st.rows, st.nextId⟩ c (u + 1) st2 c2 u2 h
        simp at this ⊢
        omega

/-- Running the loop over slots whose keys all differ from a slot
preserves the applied state of that slot. -/
theorem txLoop_preserve (tenant : String) :
    ∀ (plan : List Slot) (i : Nat) (st : Store) (c u : Nat) (st2 : Store) (c2 u2 : Nat)
      (s0 : Slot),
      txLoop noFail noFail tenant plan i st c u = .ok (st2, c2, u2) →
      (∀ s ∈ plan, slotKey s ≠ slotKey s0) →
      applied tenant st.rows s0 → applied tenant st2.rows s0 := by
  intro plan
  induction plan with
  | nil =>
    intro i st c u st2 c2 u2 s0 h _ happ
    simp [txLoop] at h
    rw [← h.1]
    exact happ
  | cons s rest ih =>
    intro i st c u st2 c2 u2 s0 h hne happ
    have hneK : slotKey s ≠ slotKey s0 := hne s (List.mem_cons_self s rest)
    have hneR : ∀ s2 ∈ rest, slotKey s2 ≠ slotKey s0 :=
      fun s2 hs2 => hne s2 (List.mem_cons_of_mem s hs2)
    by_cases h0 : st.rows.countP (keyMatch tenant s) = 0
    · simp only [txLoop, noFail, Bool.false_eq_true, if_false, h0, if_pos] at h
      exact ih (i + 1) (insertRow tenant s st) (c + 1) u st2 c2 u2 s0 h hneR
        (applied_preserved_insert hneK happ)
    · simp only [txLoop, noFail, Bool.false_eq_true, if_false, h0] at h
      exact ih (i + 1) ⟨updateRows tenant s st.rows, st.nextId⟩ c (u + 1) st2 c2 u2 s0 h hneR
        (applied_preserved_update hneK happ)

/-- After a successful no-failure run over a plan with pairwise distinct
keys, the store is in applied state for every slot of the plan. -/
theorem txLoop_applied (tenant : String) :
    ∀ (plan : List Slot) (i : Nat) (st : Store) (c u : Nat) (st2 : Store) (c2 u2 : Nat),
      plan.Pairwise (fun a b => slotKey a ≠ slotKey b) →
      txLoop noFail noFail tenant plan i st c u = .ok (st2, c2, u2) →
      ∀ s ∈ plan, applied tenant st2.rows s := by
  intro plan
  induction plan with
  | nil =>
    intro i st c u st2 c2 u2 _ _ s hs
    cases hs
  | cons s rest ih =>
    intro i st c u st2 c2 u2 hpw h s2 hs2
    obtain ⟨hhead, htail⟩ := List.pairwise_cons.mp hpw
    by_cases h0 : st.rows.countP (keyMatch tenant s) = 0
    · simp only [txLoop, noFail, Bool.false_eq_true, if_false, h0, if_pos] at h
      rcases List.mem_cons.mp hs2 with rfl | hmem
      · exact txLoop_preserve tenant rest (i + 1) (insertRow tenant s2 st) (c + 1) u st2 c2 u2
          s2 h (fun b hb => (hhead b hb).symm) (applied_insertRow h0)
      · exact ih (i + 1) (insertRow tenant s st) (c + 1) u st2 c2 u2 htail h s2 hmem
    · simp only [txLoop, noFail, Bool.false_eq_true, if_false, h0] at h
      rcases List.mem_cons.mp hs2 with rfl | hmem
      · exact txLoop_preserve tenant rest (i + 1) ⟨updateRows tenant s2 st.rows, st.nextId⟩ c
          (u + 1) st2 c2 u2 s2 h (fun b hb => (hhead b hb).symm) (applied_updateRows h0)
      · exact ih (i + 1) ⟨updateRows tenant s st.rows, st.nextId⟩ c (u + 1) st2 c2 u2 htail h
          s2 hmem

/-- Re-running the loop over an already-applied plan changes nothing and
counts every slot as updated. -/
theorem txLoop_noop (tenant : String) :
    ∀ (plan : List Slot) (i : Nat) (st : Store) (c u : Nat),
      (∀ s ∈ plan, applied tenant st.rows s) →
      txLoop noFail noFail tenant plan i st c u = .ok (st, c, u + plan.length) := by
  intro plan
  induction plan with
  | nil =>
    intro i st c u _
    simp [txLoop]
  | cons s rest ih =>
    intro i st c u hall
    obtain ⟨⟨r, hr, hk⟩, hfields⟩ := hall s (List.mem_cons_self s rest)
    have h0 : st.rows.countP (keyMatch tenant s) ≠ 0 := by
      intro hz
      exact absurd hk (List.countP_eq_zero.mp hz r hr)
    have hupd : updateRows tenant s st.rows = st.rows := by
      unfold updateRows
      have hpt : ∀ r2 ∈ st.rows, (if keyMatch tenant s r2 then setFields s r2 else r2) = r2 := by
        intro r2 hr2
        by_cases hk2 : keyMatch tenant s r2 = true
        · rw [if_pos hk2]
          exact hfields r2 hr2 hk2
        · rw [if_neg hk2]
      calc st.rows.map (fun r2 => if keyMatch tenant s r2 then setFields s r2 else r2)
          = st.rows.map id := List.map_congr_left hpt
        _ = st.rows := List.map_id st.rows
    have hst : (⟨updateRows tenant s st.rows, st.nextId⟩ : Store) = st := by
      rw [hupd]
    have hrec := ih (i + 1) st c (u + 1) (fun s2 hs2 => hall s2 (List.mem_cons_of_mem s hs2))
    calc txLoop noFail noFail tenant (s :: rest) i st c u
        = txLoop noFail noFail tenant rest (i + 1) ⟨updateRows tenant s st.rows, st.nextId⟩ c
            (u + 1) := by
          simp [txLoop, noFail, h0]
      _ = txLoop noFail noFail tenant rest (i + 1) st c (u + 1) := by rw [hst]
      _ = .ok (st, c, u + 1 + rest.length) := hrec
      _ = .ok (st, c, u + (s :: rest).length) := by
          rw [show u + 1 + rest.length = u + (s :: rest).length from by simp; omega]

/-! Claim theorems for the Publisher -/

/-- Claim C2: a store failure inside the transaction propagates, no
counts are returned, and the persisted state is the pre-call state. -/
theorem C2_publish_atomic (tenant : String) (plan : List Slot) (st : Store)
    (orU orI : Nat → Bool) (e : String)
    (h : txLoop orU orI tenant plan 0 st 0 0 = .error e) :
    publish_plan tenant plan st orU orI = (st, .error e) := by
  cases plan with
  | nil => simp [txLoop] at h
  | cons s rest => simp [publish_plan, h]

/-- Plan and failure oracle of the C2 witness: two fresh slots, INSERT
of the second one raises. -/
def plan2 : List Slot :=
  [⟨d0818, 540, 570, 15, "tons", "", false⟩, ⟨d0818, 570, 600, 15, "tons", "", false⟩]

/-- Witness for C2: the INSERT of the first slot succeeded inside the
transaction, the second raised; the committed state shows no trace of
the first. -/
theorem C2_publish_atomic_wit :
    txLoop noFail (fun i => i == 1) "t" plan2 0 ⟨[], 0⟩ 0 0 = .error "insert failed" ∧
    publish_plan "t" plan2 ⟨[], 0⟩ noFail (fun i => i == 1) = (⟨[], 0⟩, .error "insert failed") :=
  ⟨rfl, C2_publish_atomic "t" plan2 ⟨[], 0⟩ noFail (fun i => i == 1) "insert failed" rfl⟩

/-- Claim C3: a successful publish returns skipped as the derived
difference, which is always zero because each slot is counted created or
updated; the empty plan returns zero counts with the store untouched. -/
theorem C3_publish_counts :
    (∀ (tenant : String) (plan : List Slot) (st : Store) (orU orI : Nat → Bool)
        (st2 : Store) (c : Counts),
        publish_plan tenant plan st orU orI = (st2, .ok c) →
        c.skipped = plan.length - (c.created + c.updated) ∧
        c.created + c.updated = plan.length ∧ c.skipped = 0) ∧
    (∀ (tenant : String) (st : Store) (orU orI : Nat → Bool),
        publish_plan tenant [] st orU orI = (st, .ok ⟨0, 0, 0⟩)) := by
  constructor
  · intro tenant plan st orU orI st2 c h
    cases plan with
    | nil =>
      simp [publish_plan] at h
      rw [← h.2]
      exact ⟨rfl, rfl, rfl⟩
    | cons s rest =>
      unfold publish_plan at h
      simp only [List.isEmpty_cons, Bool.false_eq_true, if_false] at h
      cases htx : txLoop orU orI tenant (s :: rest) 0 st 0 0 with
      | error e =>
        rw [htx] at h
        simp at h
      | ok t =>
        obtain ⟨st3, c3, u3⟩ := t
        rw [htx] at h
        simp at h
        have hcount := txLoop_counts orU orI tenant (s :: rest) 0 st 0 0 st3 c3 u3 htx
        simp at hcount
        rw [← h.2]
        refine ⟨rfl, by simpa using hcount, ?_⟩
        simp
        omega
  · intro tenant st orU orI
    rfl

/-- Witness for C3 on a one-slot publish into an empty store. -/
theorem C3_publish_counts_wit :
    (⟨1, 0, 0⟩ : Counts).skipped =
        [(⟨d0818, 540, 570, 15, "tons", "", false⟩ : Slot)].length -
          ((⟨1, 0, 0⟩ : Counts).created + (⟨1, 0, 0⟩ : Counts).updated) ∧
    (⟨1, 0, 0⟩ : Counts).created + (⟨1, 0, 0⟩ : Counts).updated =
        [(⟨d0818, 540, 570, 15, "tons", "", false⟩ : Slot)].length ∧
    (⟨1, 0, 0⟩ : Counts).skipped = 0 :=
  C3_publish_counts.1 "t" [⟨d0818, 540, 570, 15, "tons", "", false⟩] ⟨[], 0⟩ noFail noFail
    ⟨[⟨0, "t", d0818, 540, 570, 15, "tons", false, some ""⟩], 1⟩ ⟨1, 0, 0⟩ rfl

/-- Claim C1: publishing the same distinct-key plan again against the
state a successful publish produced reports created 0, updated N and
skipped 0, and leaves the store exactly as it was. -/
theorem C1_publish_idempotent (tenant : String) (plan : List Slot) (st st1 : Store)
    (r1 : Except String Counts)
    (hpw : plan.Pairwise fun a b => slotKey a ≠ slotKey b)
    (h : publish_plan tenant plan st noFail noFail = (st1, r1)) :
    publish_plan tenant plan st1 noFail noFail = (st1, .ok ⟨0, plan.length, 0⟩) := by
  cases plan with
  | nil =>
    simp [publish_plan]
  | cons s rest =>
    obtain ⟨st2, c2, u2, htx⟩ := txLoop_noFail_ok tenant (s :: rest) 0 st 0 0
    unfold publish_plan at h
    simp only [List.isEmpty_cons, Bool.false_eq_true, if_false, htx] at h
    have hst1 : st2 = st1 := by
      have := congrArg Prod.fst h
      simpa using this
    rw [hst1] at htx
    have happ := txLoop_applied tenant (s :: rest) 0 st 0 0 st1 c2 u2 hpw htx
    have hno := txLoop_noop tenant (s :: rest) 0 st1 0 0 happ
    unfold publish_plan
    simp only [List.isEmpty_cons, Bool.false_eq_true, if_false, hno]
    have hz : (0 : Nat) + (s :: rest).length = (s :: rest).length := by omega
    rw [hz]
    have hsk : (s :: rest).length - (0 + (s :: rest).length) = 0 := by omega
    rw [hsk]

/-- Witness for C1: republishing a two-slot plan against the store the
first publish produced updates both rows in place and changes nothing. -/
theorem C1_publish_idempotent_wit :
    (plan2.Pairwise fun a b => slotKey a ≠ slotKey b) ∧
    publish_plan "t" plan2
        ⟨[⟨0, "t", d0818, 540, 570, 15, "tons", false, some ""⟩,
          ⟨1, "t", d0818, 570, 600, 15, "tons", false, some ""⟩], 2⟩ noFail noFail =
      (⟨[⟨0, "t", d0818, 540, 570, 15, "tons", false, some ""⟩,
         ⟨1, "t", d0818, 570, 600, 15, "tons", false, some ""⟩], 2⟩, .ok ⟨0, 2, 0⟩) :=
  ⟨by decide,
   C1_publish_idempotent "t" plan2 ⟨[], 0⟩
     ⟨[⟨0, "t", d0818, 540, 570, 15, "tons", false, some ""⟩,
       ⟨1, "t", d0818, 570, 600, 15, "tons", false, some ""⟩], 2⟩
     (.ok ⟨2, 0, 0⟩) (by decide) rfl⟩

end GrowerSlot
